import Mathlib

/-!
Verification of the checkpointing hook's core components against its
natural-language specification.  The definitions below are shallow
embeddings of the Python sources:

* `src/checkpointing/config.py`   — configuration validation and the
  exclusion pattern matcher;
* `src/checkpointing/git_ops.py`  — hash validation, the restore
  synchronisation algorithm and the restore entry point;
* `src/checkpointing/metadata.py` — the metadata store (add, update,
  list, cleanup, stats, file extraction);
* `src/checkpoint-manager.py`     — the post-tool-use finalisation.

File trees are modelled as association lists from a path (a list of
segments) to file content; JSON payloads are modelled by the `JVal`
inductive; Python's stable `list.sort(reverse=True)` is modelled with
`List.insertionSort` over the reversed order, which is stable with the
same tie-breaking behaviour.
-/

/-- A JSON-like value as produced by Python's `json.load`: booleans,
integers, floats (modelled as rationals), strings, null, arrays and
objects (association lists preserving insertion order). -/
inductive JVal where
  | jbool  : Bool → JVal
  | jint   : Int → JVal
  | jfloat : Rat → JVal
  | jstr   : String → JVal
  | jnull  : JVal
  | jarr   : List JVal → JVal
  | jobj   : List (String × JVal) → JVal

open JVal

/-- Python truthiness (`bool(v)`): `False`, `0`, `0.0`, `""`, `None`,
`[]` and the empty dict are falsy, everything else truthy. -/
def pyTruthy : JVal → Bool
  | jbool b  => b
  | jint n   => n != 0
  | jfloat q => q != 0
  | jstr s   => s != ""
  | jnull    => false
  | jarr xs  => !xs.isEmpty
  | jobj fs  => !fs.isEmpty

/-- Python's `min(a, b)`: returns `b` exactly when `b < a`. -/
def pymin {α : Type} [LT α] [DecidableRel (α := α) (· < ·)] (a b : α) : α :=
  if b < a then b else a

/-- Python's `max(a, b)`: returns `b` exactly when `a < b`. -/
def pymax {α : Type} [LT α] [DecidableRel (α := α) (· < ·)] (a b : α) : α :=
  if a < b then b else a

/-- Strip leading and trailing whitespace from a character list
(Python `str.strip()`). -/
def trimChars (cs : List Char) : List Char :=
  ((cs.dropWhile Char.isWhitespace).reverse.dropWhile Char.isWhitespace).reverse

/-- Parse a nonempty all-digit character list as a natural number. -/
def parseDigits (cs : List Char) : Option Nat :=
  if cs.isEmpty then none
  else if cs.all Char.isDigit then
    some (cs.foldl (fun acc c => acc * 10 + (c.toNat - 48)) 0)
  else none

/-- Model of Python `int(s)` on a string: strips whitespace, accepts an
optional sign followed by digits, raises (`none`) otherwise.
(Underscore separators are not modelled.) -/
def pyIntOfString (s : String) : Option Int :=
  match trimChars s.data with
  | '+' :: rest => (parseDigits rest).map fun n => (n : Int)
  | '-' :: rest => (parseDigits rest).map fun n => -(n : Int)
  | rest        => (parseDigits rest).map fun n => (n : Int)

/-- Model of Python `float(s)` on a string: optional sign and a finite
decimal literal `D`, `D.D`, `D.` or `.D`.  (Exponents and the special
`inf`/`nan` literals are not modelled; no claim exercises them.) -/
def pyFloatOfString (s : String) : Option Rat :=
  let core : List Char → Option Rat := fun cs =>
    let intPart := cs.takeWhile Char.isDigit
    let rest := cs.drop intPart.length
    match rest with
    | [] => (parseDigits intPart).map fun n => (n : Rat)
    | '.' :: fracPart =>
        if fracPart.all Char.isDigit ∧ (intPart ≠ [] ∨ fracPart ≠ []) then
          let ip := (parseDigits intPart).getD 0
          let fp := (parseDigits fracPart).getD 0
          some (mkRat ((ip : Int) * (10 : Int) ^ fracPart.length + (fp : Int))
                      ((10 : Nat) ^ fracPart.length))
        else none
    | _ => none
  match trimChars s.data with
  | '+' :: rest => core rest
  | '-' :: rest => (core rest).map Neg.neg
  | rest        => core rest

/-- Truncation toward zero of a rational, as Python `int(float)` does. -/
def ratTrunc (q : Rat) : Int := q.num.tdiv (q.den : Int)

/-- Model of Python `int(v)` over JSON values (config.py line 60):
booleans convert to 0/1, ints are unchanged, floats truncate toward
zero, strings parse as integer literals; everything else raises. -/
def pyInt : JVal → Option Int
  | jbool b  => some (if b then 1 else 0)
  | jint n   => some n
  | jfloat q => some (ratTrunc q)
  | jstr s   => pyIntOfString s
  | _        => none

/-- Model of Python `float(v)` over JSON values (config.py line 81). -/
def pyFloat : JVal → Option Rat
  | jbool b  => some (if b then 1 else 0)
  | jint n   => some (n : Rat)
  | jfloat q => some q
  | jstr s   => pyFloatOfString s
  | _        => none

/-- Model of Python `str(v)` as used on exclusion patterns
(config.py line 72); only the string case is exercised by the claims. -/
def pyStr : JVal → String
  | jbool b  => if b then "True" else "False"
  | jint n   => toString n
  | jfloat q => toString q
  | jstr s   => s
  | jnull    => "None"
  | jarr _   => "<list>"
  | jobj _   => "<dict>"

/-- `config.get(key, default)` on a JSON object. -/
def jgetD (cfg : List (String × JVal)) (k : String) (d : JVal) : JVal :=
  (List.lookup k cfg).getD d

/-- The validated configuration record produced by
`CheckpointConfig._validate_config`. -/
structure ValidatedConfig where
  enabled : Bool
  retention_days : Int
  exclude_patterns : List String
  max_file_size_mb : Rat
  checkpoint_on_stop : Bool
  auto_cleanup : Bool
deriving DecidableEq, Repr

/-- The default exclusion patterns of `_default_config` (config.py
lines 38-47). -/
def defaultExcludePatterns : List String :=
  ["*.log", "node_modules/", ".env", "__pycache__/"]

/-- The rational one tenth, the lower clamp bound `0.1` for
`max_file_size_mb` (config.py line 82), built so it reduces in the
kernel. -/
def ratTenth : Rat := ⟨1, 10, by decide, by decide⟩

/-- Embedding of `CheckpointConfig._validate_config` (config.py lines
49-92): each field is read with its default, converted, and numeric
fields are clamped; a conversion error falls back to the default. -/
def validate_config (cfg : List (String × JVal)) : ValidatedConfig :=
  let enabled := pyTruthy (jgetD cfg "enabled" (jbool true))
  let retention_days :=
    match pyInt (jgetD cfg "retention_days" (jint 7)) with
    | some n => pymax 1 (pymin n 365)
    | none => 7
  let exclude_patterns :=
    match List.lookup "exclude_patterns" cfg with
    | some jnull => []
    | some (jarr xs) => (xs.filter pyTruthy).map pyStr
    | some _ => defaultExcludePatterns
    | none => defaultExcludePatterns
  let max_file_size_mb :=
    match pyFloat (jgetD cfg "max_file_size_mb" (jint 100)) with
    | some q => pymax ratTenth (pymin q 1000)
    | none => 100
  let checkpoint_on_stop := pyTruthy (jgetD cfg "checkpoint_on_stop" (jbool false))
  let auto_cleanup := pyTruthy (jgetD cfg "auto_cleanup" (jbool true))
  { enabled := enabled, retention_days := retention_days,
    exclude_patterns := exclude_patterns, max_file_size_mb := max_file_size_mb,
    checkpoint_on_stop := checkpoint_on_stop, auto_cleanup := auto_cleanup }

example : (validate_config [("retention_days", jint 400)]).retention_days = 365 := by decide
example : (validate_config [("retention_days", jstr "x")]).retention_days = 7 := by decide
example : (validate_config []).max_file_size_mb = 100 := by decide
example : (validate_config [("exclude_patterns", jnull)]).exclude_patterns = [] := by decide

/-! ### Pattern matcher (config.py, `should_exclude_file` / `_match_pattern`)

File paths are modelled in normalised segment form: a list of path
segments, as produced by `str(pathlib.Path(p)).split('/')` on a clean
relative or absolute path.  On this form `str(Path(p))` and the
backslash replacement are the identity, which the theorems assume via
hypotheses on the segments. -/

/-- Python `sub in s` (substring containment). -/
def containsStr (s sub : String) : Bool :=
  s.data.tails.any (fun t => sub.data.isPrefixOf t)

/-- Python `s.endswith("/")`, computed on the character list. -/
def endsWithSlash (s : String) : Bool := s.data.getLast? == some '/'

/-- Python `s.rstrip("/")`. -/
def stripTrailingSlashes (s : String) : String :=
  ⟨(s.data.reverse.dropWhile (fun c => c = '/')).reverse⟩

/-- Python `s.replace("\\", "/")` for single characters. -/
def replaceBS (s : String) : String :=
  ⟨s.data.map (fun c => if c = '\\' then '/' else c)⟩

/-- Core of `fnmatch.fnmatch` for patterns built from literals, `*`
(any sequence) and `?` (any single character); character classes
`[...]` are not modelled (no configured pattern uses them).  Arguments
are pattern first, then the candidate string. -/
def globMatch : List Char → List Char → Bool
  | [], s => s.isEmpty
  | c :: ps, s =>
    if c = '*' then s.tails.any (fun t => globMatch ps t)
    else
      match s with
      | [] => false
      | d :: s' => (c = '?' || c == d) && globMatch ps s'

/-- `fnmatch.fnmatch(name, pat)` on strings (case-sensitive POSIX
behaviour). -/
def fnmatchB (name pat : String) : Bool := globMatch pat.data name.data

/-- Python `"/".join(segs)`, the string form of a path given as
segments. -/
def joinSegs : List String → String
  | [] => ""
  | [s] => s
  | s :: rest => s ++ "/" ++ joinSegs rest

/-- `pathlib.Path.name`: the final path segment. -/
def lastSeg (segs : List String) : String := segs.getLastD ""

/-- Fuel-driven helper for `parentsOf`: repeatedly drop the last
segment, collecting each proper prefix. -/
def parentsAux : Nat → List String → List (List String)
  | 0, _ => []
  | _ + 1, [] => []
  | n + 1, l => l.dropLast :: parentsAux n l.dropLast

/-- `pathlib.Path.parents` of a path in segment form: every proper
prefix, longest first, ending with the empty prefix (Python's
`Path(".")`). -/
def parentsOf (segs : List String) : List (List String) :=
  parentsAux segs.length segs

/-- The directory-pattern branch of `_match_pattern` (config.py lines
171-182): a pattern ending in `/` matches the file itself or any
ancestor directory, by string prefix or by `fnmatch` on the ancestor's
name. -/
def matchDirBranch (segs : List String) (dirPat : String) : Bool :=
  let fileStr := joinSegs segs
  (fileStr == dirPat || (dirPat ++ "/").data.isPrefixOf fileStr.data) ||
  (parentsOf segs).any (fun par =>
    let parStr := if par.isEmpty then "." else joinSegs par
    let parName := if par.isEmpty then "" else lastSeg par
    (parStr == dirPat || ("/" ++ dirPat).data.isSuffixOf parStr.data) ||
      fnmatchB parName dirPat)

/-- Embedding of `CheckpointConfig._match_pattern` (config.py lines
164-266).  The branch for patterns containing `**` (lines 184-247,
which relies on `pathlib.PurePath.match`) is kept abstract as the
parameter `mm`; every theorem below holds for all values of `mm`
because no exercised pattern contains `**`. -/
def match_pattern (mm : String → List String → Bool)
    (segs : List String) (pat : String) : Bool :=
  let pattern := replaceBS pat
  if endsWithSlash pattern then
    matchDirBranch segs (stripTrailingSlashes pattern)
  else if containsStr pattern "**" then
    mm pattern segs
  else
    let fileStr := joinSegs segs
    fnmatchB fileStr pattern || fnmatchB (lastSeg segs) pattern ||
      (if containsStr pattern "/" then
        (List.range segs.length).any (fun i => fnmatchB (joinSegs (segs.drop i)) pattern)
      else false)

/-- Leftmost match of the regular expression `\x7b[^\x7d]+\x7d` used
for brace expansion (config.py line 142): returns the text before the
brace group, the group body, and the text after it. -/
def braceSearch (cs : List Char) : Option (List Char × List Char × List Char) :=
  match cs with
  | [] => none
  | c :: rest =>
    if c = '\x7b' then
      let body := rest.takeWhile (fun d => d ≠ '\x7d')
      if body.length < rest.length && !body.isEmpty then
        some ([], body, rest.drop (body.length + 1))
      else
        (braceSearch rest).map (fun r => (c :: r.1, r.2.1, r.2.2))
    else
      (braceSearch rest).map (fun r => (c :: r.1, r.2.1, r.2.2))

/-- Python `str.split(sep)` on character lists (adjacent separators
yield empty pieces, like `"a,,b".split(",")`). -/
def splitChars (sep : Char) : List Char → List (List Char)
  | [] => [[]]
  | c :: rest =>
    let r := splitChars sep rest
    if c = sep then [] :: r
    else
      match r with
      | [] => [[c]]
      | h :: t => (c :: h) :: t

/-- One iteration of the pattern loop in `should_exclude_file`
(config.py lines 134-154): empty patterns are skipped, brace groups
are expanded into one pattern per alternative, and otherwise the
pattern is matched directly. -/
def patternExcludes (mm : String → List String → Bool)
    (segs : List String) (pat : String) : Bool :=
  if pat == "" then false
  else if pat.data.contains '\x7b' && pat.data.contains '\x7d' then
    match braceSearch pat.data with
    | some (pre, body, suf) =>
        (splitChars ',' body).any (fun opt =>
          match_pattern mm segs ⟨pre ++ trimChars opt ++ suf⟩)
    | none => match_pattern mm segs pat
  else match_pattern mm segs pat

/-- Embedding of `CheckpointConfig.should_exclude_file` (config.py
lines 124-162): a path is excluded when some configured pattern
matches it, or when the file exists and its size exceeds the
configured limit; the latter condition is abstracted as the boolean
`sizeExceeded`. -/
def should_exclude_file (mm : String → List String → Bool)
    (patterns : List String) (segs : List String) (sizeExceeded : Bool) : Bool :=
  patterns.any (patternExcludes mm segs) || sizeExceeded

example : ∀ mm, should_exclude_file mm ["*.log"] ["main.py"] false = false :=
  fun _ => rfl
example : ∀ mm, should_exclude_file mm ["*.log"] ["a", "b.log"] false = true :=
  fun _ => rfl
example : ∀ mm, should_exclude_file mm ["build/*"] ["sub", "build", "file.txt"] false = true :=
  fun _ => rfl
example : ∀ mm, should_exclude_file mm ["node_modules/"] ["node_modules", "x", "y.js"] false = true :=
  fun _ => rfl
example : ∀ mm, should_exclude_file mm ["*.\x7btmp,bak\x7d"] ["a.bak"] false = true :=
  fun _ => rfl

/-! ### File trees and restoration (git_ops.py)

A live project tree or a checked-out snapshot worktree is modelled as
an association list from a path in segment form to the file's content.
Directories are implicit: a directory exists exactly while some file
lies beneath it, which is the invariant the deletion loop of
`_full_restore_sync` maintains by removing directories emptied by a
deletion (git_ops.py lines 350-354). -/

/-- A file path in segment form. -/
abbrev FPath := List String

/-- A file tree: an association list from path to content. -/
abbrev FTree := List (FPath × String)

/-- Python `name.startswith(".")`. -/
def segHidden (s : String) : Bool := s.data.head? == some '.'

/-- A segment the project-side collector keeps: any non-dot name
(git_ops.py lines 324-327 skip every hidden entry). -/
def segVisible (s : String) : Bool := !segHidden s

/-- A segment the checkpoint-side collector and the copier keep: any
non-dot name, or the literal `.gitignore` (git_ops.py lines 255, 304). -/
def segAllowedCk (s : String) : Bool := !segHidden s || s == ".gitignore"

/-- Embedding of `collect_checkpoint_files` (git_ops.py lines 301-315):
every file of the snapshot whose segments are all non-hidden (with the
`.gitignore` exception applied at each level). -/
def collect_checkpoint_files (src : FTree) : List FPath :=
  (src.filter (fun e => e.1.all segAllowedCk)).map (fun e => e.1)

/-- Embedding of `collect_project_files` (git_ops.py lines 320-334):
every file of the live tree whose segments are all non-hidden (no
exception). -/
def collect_project_files (dst : FTree) : List FPath :=
  (dst.filter (fun e => e.1.all segVisible)).map (fun e => e.1)

/-- A line of the snapshot's `.gitignore` participates in skipping when
it is nonempty and not a comment (git_ops.py line 261). -/
def gitignoreActive (p : String) : Bool :=
  p != "" && !(p.data.head? == some '#')

/-- The simplified gitignore test of `_sync_files` (git_ops.py line
262): an active line skips an entry when the stripped line occurs as a
substring of the entry's relative path.  Because the check runs at
every directory level and a directory's path string is a prefix of its
files' path strings, testing the file's own relative path is
equivalent. -/
def gitignoreSkips (pats : List String) (rel : String) : Bool :=
  pats.any (fun p => gitignoreActive p && containsStr rel ⟨trimChars p.data⟩)

/-- The gitignore lines read by `_sync_files` (git_ops.py lines
244-247): the snapshot's top-level `.gitignore`, stripped and split on
newlines; no file means no patterns. -/
def gitignoreLines (src : FTree) : List String :=
  match List.lookup [".gitignore"] src with
  | some content => (splitChars '\n' (trimChars content.data)).map (fun l => (⟨l⟩ : String))
  | none => []

/-- Embedding of `_sync_files` (git_ops.py lines 239-292): copy every
non-hidden (`.gitignore` excepted) and non-gitignore-skipped file of
`src` over `dst`, overwriting and creating as needed, leaving other
`dst` files in place. -/
def sync_files (src dst : FTree) : FTree :=
  let pats := gitignoreLines src
  let copied := src.filter (fun e =>
    e.1.all segAllowedCk && !gitignoreSkips pats (joinSegs e.1))
  dst.filter (fun e => !(copied.any (fun c => c.1 == e.1))) ++ copied

/-- The deletion set of `_full_restore_sync` (git_ops.py line 340):
collected project files that are not collected checkpoint files. -/
def files_to_delete (src dst : FTree) : List FPath :=
  (collect_project_files dst).filter
    (fun p => !(collect_checkpoint_files src).contains p)

/-- The deletion phase of `_full_restore_sync` (git_ops.py lines
343-354): remove each file of the deletion set; directories emptied by
a removal are pruned, which the implicit-directory tree model renders
automatic. -/
def delete_missing (src dst : FTree) : FTree :=
  dst.filter (fun e => !(files_to_delete src dst).contains e.1)

/-- Embedding of `GitCheckpointManager._full_restore_sync` (git_ops.py
lines 294-357): delete live files absent from the snapshot, then sync
the snapshot's files over the live tree. -/
def full_restore_sync (src dst : FTree) : FTree :=
  sync_files src (delete_missing src dst)

/-- Lowercase hexadecimal digit, the character class `[a-f0-9]`. -/
def isHexLowerChar (c : Char) : Bool :=
  (97 ≤ c.toNat && c.toNat ≤ 102) || (48 ≤ c.toNat && c.toNat ≤ 57)

/-- Python `s.lower()` (ASCII behaviour). -/
def toLowerStr (s : String) : String := ⟨s.data.map Char.toLower⟩

/-- Embedding of `GitCheckpointManager._validate_checkpoint_hash`
(git_ops.py lines 32-37): the empty string is rejected, otherwise the
input is lowercased and matched against `^[a-f0-9]\x7b1,40\x7d$`.  In
Python's `re`, `$` also matches just before one trailing newline, so
the match succeeds exactly when the lowercased input, after discarding
one optional trailing newline, is 1 to 40 lowercase hex characters. -/
def validate_checkpoint_hash (s : String) : Bool :=
  if s == "" then false
  else
    let t := (toLowerStr s).data
    let core := if t.getLast? == some '\n' then t.dropLast else t
    !core.isEmpty && decide (core.length ≤ 40) && core.all isHexLowerChar

/-- The spec's stated shape for snapshot IDs: 1 to 40 characters, each
a lowercase hex digit.  (This is the predicate the claim quantifies
over; the code's `validate_checkpoint_hash` is strictly more
permissive.) -/
def claimLowerHex (s : String) : Bool :=
  !s.data.isEmpty && decide (s.data.length ≤ 40) && s.data.all isHexLowerChar

/-- The environment `restore_checkpoint` runs in: whether the
per-project checkpoint repository exists, and the result of
`git checkout <hash>` in its worktree — `none` for a failed checkout,
otherwise the worktree's resulting file tree.  Git itself is the
black-box collaborator the spec assumes correct. -/
structure RestoreEnv where
  repoExists : Bool
  checkout : String → Option FTree

/-- Embedding of `GitCheckpointManager.restore_checkpoint` (git_ops.py
lines 416-451).  Returns (success, resulting live tree, whether
snapshot storage was touched — that is, whether any git subprocess
ran). -/
def restore_checkpoint (env : RestoreEnv) (live : FTree) (hash : String)
    (dryRun : Bool) : Bool × FTree × Bool :=
  if !env.repoExists then (false, live, false)
  else if !validate_checkpoint_hash hash then (false, live, false)
  else
    match env.checkout hash with
    | none => (false, live, true)
    | some worktree =>
      if dryRun then (true, live, true)
      else (true, full_restore_sync worktree live, true)

example : full_restore_sync [([".env"], "A")] [] = [] := rfl
example : full_restore_sync [(["a.txt"], "x")] [(["b.txt"], "y")] = [(["a.txt"], "x")] := rfl
example : full_restore_sync
    [([".gitignore"], "foo"), (["foo.txt"], "new")]
    [(["foo.txt"], "old")]
    = [(["foo.txt"], "old"), ([".gitignore"], "foo")] := rfl
example : validate_checkpoint_hash "abc123" = true := rfl
example : validate_checkpoint_hash "not-a-hash!" = false := rfl
example : validate_checkpoint_hash "ABC" = true := rfl
example : validate_checkpoint_hash "abc\n" = true := rfl
example : claimLowerHex "ABC" = false := rfl

/-! ### Metadata store (metadata.py)

The persisted metadata is a JSON object mapping project hash to an
object mapping checkpoint hash to a checkpoint record; both levels are
modelled as association lists in insertion order, matching Python dict
semantics.  File locking and the atomic temp-file rename concern
crash/concurrency behaviour of the persistence layer and are not part
of the functional claims. -/

/-- Python string `<` (lexicographic by code point) on character
lists. -/
def strLtB : List Char → List Char → Bool
  | _, [] => false
  | [], _ :: _ => true
  | a :: as, b :: bs =>
    if a < b then true else if b < a then false else strLtB as bs

/-- Python string `<=`. -/
def pyStrLe (a b : String) : Bool := strLtB a.data b.data || a.data == b.data

/-- A checkpoint record as built by `add_checkpoint` (metadata.py
lines 97-104), plus the two fields `update_checkpoint_status` may add
later. -/
structure CheckpointData where
  timestamp : String
  tool_name : String
  tool_input : List (String × JVal)
  session_id : String
  status : String
  files_affected : List JVal
  status_updated : Option String := none
  tool_response : Option (List (String × JVal)) := none

/-- The per-project map from checkpoint hash to record. -/
abbrev ProjectMap := List (String × CheckpointData)

/-- The whole metadata mapping, keyed by project hash. -/
abbrev Metadata := List (String × ProjectMap)

/-- Python `d[k] = v` on an association list: replaces in place when
the key exists (keeping its position, as Python dicts do), otherwise
appends. -/
def dictInsert {β : Type} (m : List (String × β)) (k : String) (v : β) :
    List (String × β) :=
  if m.any (fun e => e.1 == k) then
    m.map (fun e => if e.1 == k then (k, v) else e)
  else m ++ [(k, v)]

/-- The ordering used by `checkpoints.sort(key=..., reverse=True)`
(metadata.py line 187): `a` may precede `b` when `b`'s timestamp is at
most `a`'s. -/
def tsGe (a b : String × CheckpointData) : Prop :=
  pyStrLe b.2.timestamp a.2.timestamp = true

instance : DecidableRel tsGe := fun _ _ =>
  inferInstanceAs (Decidable (_ = true))

/-- Python's stable descending sort by timestamp.  `List.insertionSort`
is stable with the same tie-breaking as CPython's stable sort: records
with equal timestamps keep their original (insertion) order. -/
def tsSort (l : ProjectMap) : ProjectMap := l.insertionSort tsGe

/-- Embedding of `CheckpointMetadata.list_project_checkpoints`
(metadata.py lines 173-189): the records of a project, each paired
with its hash, sorted by timestamp newest first. -/
def list_project_checkpoints (meta : Metadata) (ph : String) : ProjectMap :=
  match List.lookup ph meta with
  | none => []
  | some proj => tsSort proj

/-- Embedding of `CheckpointMetadata.cleanup_old_metadata`
(metadata.py lines 191-236): when a project holds more than
`keep_count` records, delete every record beyond the `keep_count`
newest (in stable descending timestamp order). -/
def cleanup_old_metadata (meta : Metadata) (ph : String) (keep_count : Nat) :
    Metadata :=
  match List.lookup ph meta with
  | none => meta
  | some proj =>
    let cps := tsSort proj
    if keep_count < cps.length then
      let dropped := (cps.drop keep_count).map (fun e => e.1)
      dictInsert meta ph (proj.filter (fun e => !(dropped.contains e.1)))
    else meta

/-- Embedding of `CheckpointMetadata.get_checkpoint_metadata`
(metadata.py lines 163-171). -/
def get_checkpoint_metadata (meta : Metadata) (ph ch : String) :
    Option CheckpointData :=
  (List.lookup ph meta).bind (fun proj => List.lookup ch proj)

/-- Python truthiness of the optional `tool_response` argument
(metadata.py line 153): `None` and the empty dict are both falsy. -/
def truthyOptObj : Option (List (String × JVal)) → Bool
  | none => false
  | some fs => !fs.isEmpty

/-- Embedding of `CheckpointMetadata.update_checkpoint_status`
(metadata.py lines 117-161): when the record exists its status is set
and a status-update instant recorded, and a truthy response payload is
stored; when the record does not exist nothing is saved. -/
def update_checkpoint_status (meta : Metadata) (ph ch status : String)
    (tool_response : Option (List (String × JVal))) (now : String) : Metadata :=
  match List.lookup ph meta with
  | none => meta
  | some proj =>
    match List.lookup ch proj with
    | none => meta
    | some r =>
      let r1 := { r with status := status, status_updated := some now }
      let r2 := if truthyOptObj tool_response
                then { r1 with tool_response := tool_response } else r1
      dictInsert meta ph (dictInsert proj ch r2)

/-- The per-edit loop of `_extract_files` (metadata.py lines 246-249),
including the behaviour of Python's `in` on each possible shape of an
edit entry: dict edits contribute their `file_path` value; a string or
list edit raises `TypeError` exactly when indexing with
`"file_path"` would be attempted, and any other shape raises at the
membership test itself.  `none` models an uncaught exception. -/
def collect_edit_files : List JVal → Option (List JVal)
  | [] => some []
  | e :: rest =>
    match e with
    | jobj fs =>
      match List.lookup "file_path" fs with
      | some v => (collect_edit_files rest).map (fun l => v :: l)
      | none => collect_edit_files rest
    | jstr s => if containsStr s "file_path" then none else collect_edit_files rest
    | jarr xs =>
      if xs.any (fun x => match x with | jstr t => t == "file_path" | _ => false)
      then none else collect_edit_files rest
    | _ => none

/-- Embedding of `CheckpointMetadata._extract_files` (metadata.py
lines 238-251): for the file-modification tools, a top-level
`file_path` wins outright; otherwise an `edits` list is scanned for
per-edit `file_path` entries.  `none` models an uncaught exception
from iterating a non-iterable `edits` value. -/
def extract_files (tool_name : String) (tool_input : List (String × JVal)) :
    Option (List JVal) :=
  if (["Write", "Edit", "MultiEdit"] : List String).contains tool_name then
    match List.lookup "file_path" tool_input with
    | some v => some [v]
    | none =>
      match List.lookup "edits" tool_input with
      | some (jarr es) => collect_edit_files es
      | some (jobj fs) =>
        if fs.any (fun kv => containsStr kv.1 "file_path") then none else some []
      | some (jstr _) => some []
      | some _ => none
      | none => some []
  else some []

/-- Embedding of `CheckpointMetadata.add_checkpoint` (metadata.py
lines 58-115): build a fresh `pending` record stamped with the current
instant and insert it under the project and checkpoint hashes. -/
def add_checkpoint (meta : Metadata) (ph ch tool_name : String)
    (tool_input : List (String × JVal)) (session_id now : String) :
    Option Metadata :=
  (extract_files tool_name tool_input).map (fun files =>
    let proj := (List.lookup ph meta).getD []
    let cdata : CheckpointData :=
      { timestamp := now, tool_name := tool_name, tool_input := tool_input,
        session_id := session_id, status := "pending", files_affected := files }
    dictInsert meta ph (dictInsert proj ch cdata))

/-- Numeric value of a JSON scalar, for Python `==` across `bool`,
`int` and `float`. -/
def pyNumVal : JVal → Option Rat
  | jbool b  => some (if b then 1 else 0)
  | jint n   => some (n : Rat)
  | jfloat q => some q
  | _        => none

/-- Python `==` on the hashable JSON scalars usable as dict keys:
numbers compare by value (`True == 1`), strings by content, `None` to
itself; different shapes are unequal. -/
def pyKeyEq (a b : JVal) : Bool :=
  match pyNumVal a, pyNumVal b with
  | some x, some y => x == y
  | _, _ =>
    match a, b with
    | jstr x, jstr y => x == y
    | jnull, jnull => true
    | _, _ => false

/-- Python `file_counts[file] = file_counts.get(file, 0) + 1`
(metadata.py line 293) on an insertion-ordered association list. -/
def bumpCount (counts : List (JVal × Nat)) (f : JVal) : List (JVal × Nat) :=
  if counts.any (fun e => pyKeyEq e.1 f) then
    counts.map (fun e => if pyKeyEq e.1 f then (e.1, e.2 + 1) else e)
  else counts ++ [(f, 1)]

/-- The ordering of `sorted(file_counts.items(), key=..., reverse=True)`
(metadata.py line 295). -/
def cntGe (a b : JVal × Nat) : Prop := b.2 ≤ a.2

instance : DecidableRel cntGe := fun _ _ =>
  inferInstanceAs (Decidable (_ ≤ _))

instance : IsTotal (JVal × Nat) cntGe := ⟨fun a b => Nat.le_total b.2 a.2⟩

instance : IsTrans (JVal × Nat) cntGe :=
  ⟨fun _ _ _ h1 h2 => Nat.le_trans h2 h1⟩

/-- Embedding of `CheckpointMetadata._get_most_modified_files`
(metadata.py lines 287-296): occurrence counts of affected files in
first-seen order, stably sorted by count descending, truncated to
`limit`. -/
def get_most_modified_files (cps : ProjectMap) (limit : Nat) :
    List (JVal × Nat) :=
  let counts := cps.foldl (fun acc c => c.2.files_affected.foldl bumpCount acc) []
  (counts.insertionSort cntGe).take limit

/-- The result shape of `get_project_stats`; `none` in the last two
fields models the absence of the corresponding dict key. -/
structure ProjectStats where
  total_checkpoints : Nat
  successful : Nat
  failed : Nat
  pending : Nat
  most_modified_files : Option (List (JVal × Nat))
  latest_checkpoint : Option String

/-- Embedding of `CheckpointMetadata.get_project_stats` (metadata.py
lines 264-285): with no records only the four counters are produced;
otherwise all six fields. -/
def get_project_stats (meta : Metadata) (ph : String) : ProjectStats :=
  match list_project_checkpoints meta ph with
  | [] =>
    { total_checkpoints := 0, successful := 0, failed := 0, pending := 0,
      most_modified_files := none, latest_checkpoint := none }
  | c :: rest =>
    { total_checkpoints := (c :: rest).length,
      successful := ((c :: rest).filter (fun e => e.2.status == "success")).length,
      failed := ((c :: rest).filter (fun e => e.2.status == "failed")).length,
      pending := ((c :: rest).filter (fun e => e.2.status == "pending")).length,
      most_modified_files := some (get_most_modified_files (c :: rest) 5),
      latest_checkpoint := some c.2.timestamp }

/-- Embedding of `handle_post_tool_use` (checkpoint-manager.py lines
111-149): under the enabled flag and a file-modification tool, the
newest listed checkpoint is transitioned to `success` or `failed`
according to the truthiness of `tool_response.get("success", True)`;
in every case the exit code is 0. -/
def handle_post_tool_use (enabled : Bool) (tool_name : String)
    (tool_response : List (String × JVal)) (meta : Metadata) (ph now : String) :
    Nat × Metadata :=
  if !enabled then (0, meta)
  else if !((["Write", "Edit", "MultiEdit"] : List String).contains tool_name) then
    (0, meta)
  else
    match list_project_checkpoints meta ph with
    | [] => (0, meta)
    | latest :: _ =>
      let status :=
        if pyTruthy (jgetD tool_response "success" (jbool true))
        then "success" else "failed"
      (0, update_checkpoint_status meta ph latest.1 status (some tool_response) now)

theorem strLtB_trans (as : List Char) : ∀ bs cs, strLtB as bs = true →
    strLtB bs cs = true → strLtB as cs = true := by
  induction as with
  | nil =>
    intro bs cs _ h2
    cases cs with
    | nil => cases bs <;> simp [strLtB] at h2
    | cons c cs' => simp [strLtB]
  | cons a as ih =>
    intro bs cs h1 h2
    cases bs with
    | nil => simp [strLtB] at h1
    | cons b bs' =>
      cases cs with
      | nil => simp [strLtB] at h2
      | cons c cs' =>
        simp only [strLtB] at h1 h2 ⊢
        by_cases hab : a < b
        · by_cases hbc : b < c
          · simp [lt_trans hab hbc]
          · by_cases hcb : c < b
            · simp [hbc, hcb] at h2
            · have hbceq : b = c := le_antisymm (not_lt.mp hcb) (not_lt.mp hbc)
              subst hbceq
              simp [hab]
        · by_cases hba : b < a
          · simp [hab, hba] at h1
          · have habeq : a = b := le_antisymm (not_lt.mp hba) (not_lt.mp hab)
            subst habeq
            simp only [hab, if_neg, lt_irrefl, if_false] at h1 ⊢
            by_cases hac : a < c
            · simp [hac]
            · by_cases hca : c < a
              · simp [hac, hca] at h2
              · have haceq : a = c := le_antisymm (not_lt.mp hca) (not_lt.mp hac)
                subst haceq
                simp only [lt_irrefl, if_false] at h1 h2 ⊢
                exact ih _ _ h1 h2

theorem strLtB_total (as : List Char) : ∀ bs,
    strLtB as bs = true ∨ strLtB bs as = true ∨ as = bs := by
  induction as with
  | nil =>
    intro bs
    cases bs with
    | nil => right; right; rfl
    | cons b bs' => left; simp [strLtB]
  | cons a as ih =>
    intro bs
    cases bs with
    | nil => right; left; simp [strLtB]
    | cons b bs' =>
      by_cases hab : a < b
      · left; simp [strLtB, hab]
      · by_cases hba : b < a
        · right; left; simp [strLtB, hba]
        · have habeq : a = b := le_antisymm (not_lt.mp hba) (not_lt.mp hab)
          subst habeq
          rcases ih bs' with h | h | h
          · left; simp [strLtB, h]
          · right; left; simp [strLtB, h]
          · right; right; rw [h]

theorem pyStrLe_trans (a b c : String) (h1 : pyStrLe a b = true)
    (h2 : pyStrLe b c = true) : pyStrLe a c = true := by
  simp only [pyStrLe, Bool.or_eq_true, beq_iff_eq] at h1 h2 ⊢
  rcases h1 with h1 | h1
  · rcases h2 with h2 | h2
    · exact Or.inl (strLtB_trans _ _ _ h1 h2)
    · rw [← h2]; exact Or.inl h1
  · rw [h1]; exact h2

theorem pyStrLe_total (a b : String) : pyStrLe a b = true ∨ pyStrLe b a = true := by
  simp only [pyStrLe, Bool.or_eq_true, beq_iff_eq]
  rcases strLtB_total a.data b.data with h | h | h
  · exact Or.inl (Or.inl h)
  · exact Or.inr (Or.inl h)
  · exact Or.inl (Or.inr h)

instance : IsTotal (String × CheckpointData) tsGe :=
  ⟨fun a b => (pyStrLe_total b.2.timestamp a.2.timestamp).imp id id⟩

instance : IsTrans (String × CheckpointData) tsGe :=
  ⟨fun _ _ _ h1 h2 => pyStrLe_trans _ _ _ h2 h1⟩

example : pyStrLe "2025-01-01T00:00:00" "2025-01-02T00:00:00" = true := rfl

theorem intClampRange (n : Int) :
    1 ≤ pymax 1 (pymin n 365) ∧ pymax 1 (pymin n 365) ≤ 365 := by
  simp only [pymin, pymax]
  split_ifs <;> omega

theorem ratClampRange (q : Rat) :
    ratTenth ≤ pymax ratTenth (pymin q 1000) ∧
      pymax ratTenth (pymin q 1000) ≤ 1000 := by
  have h1 : ratTenth ≤ 1000 := by decide
  constructor <;> (simp only [pymin, pymax]; split_ifs <;> linarith)

/-- C3 (amended): config validation is total and yields in-range
numeric fields — a convertible `retention_days` is clamped into
[1,365] and an unconvertible one falls back to 7; a convertible
`max_file_size_mb` is clamped into [0.1,1000] and an unconvertible one
falls back to 100; an absent `exclude_patterns` falls back to the
default list, while an explicit null yields the empty list (the code's
deliberate deviation from the per-field default that corrects the
claim). -/
theorem claim_C3_config_validation (cfg : List (String × JVal)) :
    1 ≤ (validate_config cfg).retention_days ∧
    (validate_config cfg).retention_days ≤ 365 ∧
    ratTenth ≤ (validate_config cfg).max_file_size_mb ∧
    (validate_config cfg).max_file_size_mb ≤ 1000 ∧
    (∀ n, pyInt (jgetD cfg "retention_days" (jint 7)) = some n →
      (validate_config cfg).retention_days = pymax 1 (pymin n 365)) ∧
    (pyInt (jgetD cfg "retention_days" (jint 7)) = none →
      (validate_config cfg).retention_days = 7) ∧
    (∀ q, pyFloat (jgetD cfg "max_file_size_mb" (jint 100)) = some q →
      (validate_config cfg).max_file_size_mb = pymax ratTenth (pymin q 1000)) ∧
    (pyFloat (jgetD cfg "max_file_size_mb" (jint 100)) = none →
      (validate_config cfg).max_file_size_mb = 100) ∧
    (List.lookup "exclude_patterns" cfg = none →
      (validate_config cfg).exclude_patterns = defaultExcludePatterns) ∧
    (List.lookup "exclude_patterns" cfg = some JVal.jnull →
      (validate_config cfg).exclude_patterns = []) := by
  have hr : (validate_config cfg).retention_days =
      (match pyInt (jgetD cfg "retention_days" (jint 7)) with
       | some n => pymax 1 (pymin n 365)
       | none => (7 : Int)) := rfl
  have hm : (validate_config cfg).max_file_size_mb =
      (match pyFloat (jgetD cfg "max_file_size_mb" (jint 100)) with
       | some q => pymax ratTenth (pymin q 1000)
       | none => (100 : Rat)) := rfl
  have hp : (validate_config cfg).exclude_patterns =
      (match List.lookup "exclude_patterns" cfg with
       | some JVal.jnull => []
       | some (JVal.jarr xs) => (xs.filter pyTruthy).map pyStr
       | some _ => defaultExcludePatterns
       | none => defaultExcludePatterns) := rfl
  refine ⟨?_, ?_, ?_, ?_, ?_, ?_, ?_, ?_, ?_, ?_⟩
  · rw [hr]
    rcases hR : pyInt (jgetD cfg "retention_days" (jint 7)) with _ | n
    · decide
    · exact (intClampRange n).1
  · rw [hr]
    rcases hR : pyInt (jgetD cfg "retention_days" (jint 7)) with _ | n
    · decide
    · exact (intClampRange n).2
  · rw [hm]
    rcases hM : pyFloat (jgetD cfg "max_file_size_mb" (jint 100)) with _ | q
    · decide
    · exact (ratClampRange q).1
  · rw [hm]
    rcases hM : pyFloat (jgetD cfg "max_file_size_mb" (jint 100)) with _ | q
    · decide
    · exact (ratClampRange q).2
  · intro n hn; rw [hr, hn]
  · intro hn; rw [hr, hn]
  · intro q hq; rw [hm, hq]
  · intro hq; rw [hm, hq]
  · intro h; rw [hp, h]
  · intro h; rw [hp, h]

/-- C3 counterexample to the claim as stated: the configuration
`exclude_patterns: null` is of the wrong type for a pattern list, yet
validation yields the empty list rather than the documented per-field
default. -/
theorem claim_C3_counterexample :
    (validate_config [("exclude_patterns", JVal.jnull)]).exclude_patterns = [] ∧
    (validate_config [("exclude_patterns", JVal.jnull)]).exclude_patterns ≠
      defaultExcludePatterns := by
  exact ⟨rfl, by decide⟩

/-- Witness for C3: a 400-day retention clamps to 365 and an
unconvertible size string falls back to 100. -/
theorem claim_C3_witness :
    (validate_config [("retention_days", JVal.jint 400),
      ("max_file_size_mb", JVal.jstr "abc")]).retention_days = 365 ∧
    (validate_config [("retention_days", JVal.jint 400),
      ("max_file_size_mb", JVal.jstr "abc")]).max_file_size_mb = 100 := by
  have h := claim_C3_config_validation
    [("retention_days", JVal.jint 400), ("max_file_size_mb", JVal.jstr "abc")]
  constructor
  · rw [h.2.2.2.2.1 400 (by rfl)]; decide
  · rw [h.2.2.2.2.2.2.2.1 (by rfl)]

theorem globMatch_noWild (cs : List Char) (h : ∀ c ∈ cs, ¬c = '*' ∧ ¬c = '?') :
    ∀ s, globMatch cs s = true ↔ cs = s := by
  induction cs with
  | nil => intro s; cases s <;> simp [globMatch]
  | cons c cs ih =>
    intro s
    have hc := h c (List.mem_cons_self c cs)
    have hrest : ∀ x ∈ cs, ¬x = '*' ∧ ¬x = '?' :=
      fun x hx => h x (List.mem_cons_of_mem c hx)
    cases s with
    | nil => simp [globMatch, hc.1]
    | cons d s' =>
      simp only [globMatch, if_neg hc.1]
      simp [hc.2, ih hrest s', beq_iff_eq, List.cons.injEq]

theorem globMatch_star (cs : List Char) (h : ∀ c ∈ cs, ¬c = '*' ∧ ¬c = '?')
    (s : List Char) : globMatch ('*' :: cs) s = true ↔ cs <:+ s := by
  show (s.tails.any fun t => globMatch cs t) = true ↔ cs <:+ s
  rw [List.any_eq_true]
  constructor
  · rintro ⟨t, ht, hg⟩
    have : cs = t := (globMatch_noWild cs h t).mp hg
    subst this
    exact (List.mem_tails cs s).mp ht
  · intro hsuf
    exact ⟨cs, (List.mem_tails cs s).mpr hsuf, (globMatch_noWild cs h cs).mpr rfl⟩

theorem fnmatch_star_log (s : String) :
    fnmatchB s "*.log" = true ↔ ['.', 'l', 'o', 'g'] <:+ s.data := by
  have h : ∀ c ∈ ['.', 'l', 'o', 'g'], ¬c = '*' ∧ ¬c = '?' := by decide
  have hdata : "*.log".data = '*' :: ['.', 'l', 'o', 'g'] := rfl
  rw [fnmatchB, hdata, globMatch_star _ h]

theorem suffix_through_slash (pat xs ys : List Char) (hp : '/' ∉ pat) :
    pat <:+ (xs ++ '/' :: ys) ↔ pat <:+ ys := by
  constructor
  · intro h
    have h2 : ('/' :: ys) <:+ (xs ++ '/' :: ys) := List.suffix_append xs ('/' :: ys)
    rcases List.suffix_or_suffix_of_suffix h h2 with hc | hc
    · rcases List.suffix_cons_iff.mp hc with hc | hc
      · exfalso
        exact hp (hc ▸ List.mem_cons_self '/' ys)
      · exact hc
    · exfalso
      exact hp (hc.subset (List.mem_cons_self '/' ys))
  · intro h
    exact h.trans ((List.suffix_cons '/' ys).trans (List.suffix_append xs ('/' :: ys)))

theorem joinSegs_cons_data (s : String) (r : String) (rest : List String) :
    (joinSegs (s :: r :: rest)).data = s.data ++ '/' :: (joinSegs (r :: rest)).data := by
  show (s ++ "/" ++ joinSegs (r :: rest)).data = _
  rw [String.data_append, String.data_append]
  simp

theorem suffix_log_join (segs : List String) (h : ∀ s ∈ segs, '/' ∉ s.data) :
    (['.', 'l', 'o', 'g'] <:+ (joinSegs segs).data ↔
      ['.', 'l', 'o', 'g'] <:+ (lastSeg segs).data) := by
  induction segs with
  | nil => exact Iff.rfl
  | cons s rest ih =>
    cases rest with
    | nil => exact Iff.rfl
    | cons r rs =>
      have hp : '/' ∉ (['.', 'l', 'o', 'g'] : List Char) := by decide
      rw [joinSegs_cons_data, suffix_through_slash _ _ _ hp]
      have hrest : ∀ x ∈ r :: rs, '/' ∉ x.data :=
        fun x hx => h x (List.mem_cons_of_mem s hx)
      rw [ih hrest]
      rfl

/-- C6 (confirmed): with the single exclusion pattern `*.log` and the
size limit not exceeded, a path is excluded exactly when its final
segment matches the glob `*.log`; in particular `main.py` is not
excluded. -/
theorem claim_C6_log_exclusion :
    (∀ (mm : String → List String → Bool) (segs : List String),
      (∀ s ∈ segs, '/' ∉ s.data ∧ '\\' ∉ s.data) →
      should_exclude_file mm ["*.log"] segs false =
        fnmatchB (lastSeg segs) "*.log") ∧
    (∀ mm, should_exclude_file mm ["*.log"] ["main.py"] false = false) := by
  constructor
  · intro mm segs hsegs
    have e0 : ("*.log" == "") = false := rfl
    have e1 : ("*.log".data.contains '\x7b' && "*.log".data.contains '\x7d') = false := rfl
    have e2 : replaceBS "*.log" = "*.log" := rfl
    have e3 : endsWithSlash "*.log" = false := rfl
    have e4 : containsStr "*.log" "**" = false := rfl
    have e5 : containsStr "*.log" "/" = false := rfl
    have hred : should_exclude_file mm ["*.log"] segs false =
        (fnmatchB (joinSegs segs) "*.log" || fnmatchB (lastSeg segs) "*.log") := by
      simp [should_exclude_file, patternExcludes, match_pattern, e0, e1, e2, e3, e4, e5]
    rw [hred]
    by_cases hB : fnmatchB (lastSeg segs) "*.log" = true
    · simp [hB]
    · have hA : fnmatchB (joinSegs segs) "*.log" = false := by
        rw [Bool.eq_false_iff]
        intro hA
        apply hB
        rw [fnmatch_star_log] at hA ⊢
        exact (suffix_log_join segs (fun s hs => (hsegs s hs).1)).mp hA
      rw [hA, Bool.false_or]
  · intro mm
    rfl

/-- Witness for C6: in `src/app.log` the final segment matches `*.log`
and the file is excluded. -/
theorem claim_C6_witness :
    should_exclude_file (fun _ _ => false) ["*.log"] ["src", "app.log"] false =
      fnmatchB (lastSeg ["src", "app.log"]) "*.log" ∧
    should_exclude_file (fun _ _ => false) ["*.log"] ["src", "app.log"] false = true := by
  constructor
  · exact claim_C6_log_exclusion.1 (fun _ _ => false) ["src", "app.log"] (by decide)
  · rfl

theorem collect_edit_files_jobj (fss : List (List (String × JVal))) :
    collect_edit_files (fss.map JVal.jobj) =
      some (fss.filterMap (List.lookup "file_path")) := by
  induction fss with
  | nil => rfl
  | cons fs rest ih =>
    cases h : List.lookup "file_path" fs <;>
      simp [collect_edit_files, h, ih, List.filterMap_cons]

/-- C9 (confirmed): for a MultiEdit input carrying a top-level
`file_path`, the affected files are exactly that one path, regardless
of any `edits` list also present; the per-edit `file_path` values are
collected only when the top-level key is absent. -/
theorem claim_C9_multiedit_extraction :
    (∀ (ti : List (String × JVal)) (v : JVal),
      List.lookup "file_path" ti = some v →
      extract_files "MultiEdit" ti = some [v]) ∧
    (∀ (ti : List (String × JVal)) (fss : List (List (String × JVal))),
      List.lookup "file_path" ti = none →
      List.lookup "edits" ti = some (JVal.jarr (fss.map JVal.jobj)) →
      extract_files "MultiEdit" ti = some (fss.filterMap (List.lookup "file_path"))) := by
  constructor
  · intro ti v h
    simp [extract_files, h]
  · intro ti fss h1 h2
    simp [extract_files, h1, h2, collect_edit_files_jobj]

/-- Witness for C9: with both a top-level `file_path` and a populated
`edits` list, only the top-level path is recorded. -/
theorem claim_C9_witness :
    extract_files "MultiEdit"
      [("file_path", JVal.jstr "a"),
       ("edits", JVal.jarr [JVal.jobj [("file_path", JVal.jstr "b")]])] =
      some [JVal.jstr "a"] :=
  claim_C9_multiedit_extraction.1 _ (JVal.jstr "a") (by rfl)

theorem lookup_map_replace {β : Type} (m : List (String × β)) (k : String) (v : β)
    (h : m.any (fun e => e.1 == k) = true) :
    List.lookup k (m.map (fun e => if e.1 == k then (k, v) else e)) = some v := by
  induction m with
  | nil => simp at h
  | cons e m ih =>
    by_cases he : e.1 = k
    · have he' : (e.1 == k) = true := beq_iff_eq.mpr he
      simp only [List.map_cons]
      rw [if_pos he']
      simp [List.lookup]
    · have he' : (e.1 == k) = false := beq_eq_false_iff_ne.mpr he
      have he'' : ¬((e.1 == k) = true) := by simp [he']
      have hk' : (k == e.1) = false := beq_eq_false_iff_ne.mpr (Ne.symm he)
      simp only [List.any_cons, he', Bool.false_or] at h
      simp only [List.map_cons]
      rw [if_neg he'']
      simp only [List.lookup, hk']
      exact ih h

theorem lookup_append_self {β : Type} (m : List (String × β)) (k : String) (v : β)
    (h : m.any (fun e => e.1 == k) = false) :
    List.lookup k (m ++ [(k, v)]) = some v := by
  induction m with
  | nil => simp [List.lookup]
  | cons e m ih =>
    simp only [List.any_cons, Bool.or_eq_false_iff] at h
    have hk' : (k == e.1) = false := by
      rcases h with ⟨h1, _⟩
      exact beq_eq_false_iff_ne.mpr (Ne.symm (beq_eq_false_iff_ne.mp h1))
    simp [List.lookup, hk', ih h.2]

theorem lookup_dictInsert {β : Type} (m : List (String × β)) (k : String) (v : β) :
    List.lookup k (dictInsert m k v) = some v := by
  unfold dictInsert
  by_cases h : m.any (fun e => e.1 == k) = true
  · simp only [h, if_true]
    exact lookup_map_replace m k v h
  · have h' : m.any (fun e => e.1 == k) = false := by
      rwa [Bool.not_eq_true] at h
    simp only [h', Bool.false_eq_true, if_false]
    exact lookup_append_self m k v h'

theorem update_status_found (meta : Metadata) (ph ch st : String)
    (resp : Option (List (String × JVal))) (now : String)
    (proj : ProjectMap) (r : CheckpointData)
    (h1 : List.lookup ph meta = some proj) (h2 : List.lookup ch proj = some r) :
    ∃ r', get_checkpoint_metadata
        (update_checkpoint_status meta ph ch st resp now) ph ch = some r' ∧
      r'.status = st ∧ r'.status_updated = some now ∧
      (truthyOptObj resp = true → r'.tool_response = resp) ∧
      (truthyOptObj resp = false → r'.tool_response = r.tool_response) := by
  by_cases ht : truthyOptObj resp = true
  · refine ⟨{ r with status := st, status_updated := some now, tool_response := resp },
      ?_, rfl, rfl, fun _ => rfl, fun hf => by simp [ht] at hf⟩
    unfold get_checkpoint_metadata
    simp only [update_checkpoint_status, h1, h2, ht, if_true]
    simp [lookup_dictInsert]
  · have ht' : truthyOptObj resp = false := by rwa [Bool.not_eq_true] at ht
    refine ⟨{ r with status := st, status_updated := some now },
      ?_, rfl, rfl, fun htr => by simp [ht'] at htr, fun _ => rfl⟩
    unfold get_checkpoint_metadata
    simp only [update_checkpoint_status, h1, h2, ht', Bool.false_eq_true, if_false]
    simp [lookup_dictInsert]

/-- C8 (amended): when no record exists under the given project and
checkpoint hashes, `update_checkpoint_status` returns the metadata
mapping unchanged; when the record exists its status is set and the
response payload is stored when it is truthy (non-empty) — an empty
payload, though supplied, is not stored, which is the correction to
the claim. -/
theorem claim_C8_update_status :
    (∀ (meta : Metadata) (ph ch st : String) resp now,
      get_checkpoint_metadata meta ph ch = none →
      update_checkpoint_status meta ph ch st resp now = meta) ∧
    (∀ (meta : Metadata) (ph ch st : String) resp now proj r,
      List.lookup ph meta = some proj →
      List.lookup ch proj = some r →
      ∃ r', get_checkpoint_metadata
          (update_checkpoint_status meta ph ch st resp now) ph ch = some r' ∧
        r'.status = st ∧ r'.status_updated = some now ∧
        (truthyOptObj resp = true → r'.tool_response = resp) ∧
        (truthyOptObj resp = false → r'.tool_response = r.tool_response)) := by
  constructor
  · intro meta ph ch st resp now h
    unfold get_checkpoint_metadata at h
    cases h1 : List.lookup ph meta with
    | none => simp only [update_checkpoint_status, h1]
    | some proj =>
      rw [h1, Option.some_bind] at h
      simp only [update_checkpoint_status, h1, h]
  · intro meta ph ch st resp now proj r h1 h2
    exact update_status_found meta ph ch st resp now proj r h1 h2

/-- The concrete record and metadata used in the C8 counterexample and
witness. -/
def recC8 : CheckpointData :=
  { timestamp := "2025-01-01T00:00:00", tool_name := "Write", tool_input := [],
    session_id := "s", status := "pending", files_affected := [] }

/-- A one-record metadata mapping for the C8 scenario. -/
def metaC8 : Metadata := [("p", [("c", recC8)])]

/-- C8 counterexample to the claim as stated: an empty response
payload is supplied, yet the updated record stores no response — the
code's truthiness test drops the empty dict. -/
theorem claim_C8_counterexample :
    (get_checkpoint_metadata
        (update_checkpoint_status metaC8 "p" "c" "success" (some []) "T2")
        "p" "c").map (fun r => r.tool_response) = some none ∧
    some ([] : List (String × JVal)) ≠ (none : Option (List (String × JVal))) := by
  exact ⟨by rfl, by simp⟩

/-- Witness for C8: updating an existing record with a non-empty
payload stores it and sets the status. -/
theorem claim_C8_witness :
    ∃ r', get_checkpoint_metadata
        (update_checkpoint_status metaC8 "p" "c" "failed"
          (some [("success", JVal.jbool false)]) "T2") "p" "c" = some r' ∧
      r'.status = "failed" ∧ r'.status_updated = some "T2" ∧
      (truthyOptObj (some [("success", JVal.jbool false)]) = true →
        r'.tool_response = some [("success", JVal.jbool false)]) ∧
      (truthyOptObj (some [("success", JVal.jbool false)]) = false →
        r'.tool_response = recC8.tool_response) :=
  claim_C8_update_status.2 metaC8 "p" "c" "failed"
    (some [("success", JVal.jbool false)]) "T2" [("c", recC8)] recC8
    (by rfl) (by rfl)

theorem lookup_exists_of_mem {β : Type} {l : List (String × β)} {e : String × β}
    (h : e ∈ l) : ∃ w, List.lookup e.1 l = some w := by
  induction l with
  | nil => cases h
  | cons a l ih =>
    by_cases hk : (e.1 == a.1) = true
    · exact ⟨a.2, by simp [List.lookup, hk]⟩
    · have hk' : (e.1 == a.1) = false := by
        rwa [Bool.not_eq_true] at hk
      rcases List.mem_cons.mp h with he | he
      · rw [he] at hk'
        simp at hk'
      · obtain ⟨w, hw⟩ := ih he
        exact ⟨w, by simp only [List.lookup, hk']; exact hw⟩

/-- C10 (confirmed): the post-tool-use finalisation always exits with
code 0; with no checkpoint records it changes nothing; otherwise it
transitions the newest listed record to `success` when the
`success` key is absent from the tool response (missing is treated
as true), and to `failed` exactly when `success` is present and
falsy. -/
theorem claim_C10_finalize :
    (∀ e tn tr (meta : Metadata) ph now,
      (handle_post_tool_use e tn tr meta ph now).1 = 0) ∧
    (∀ tr (meta : Metadata) ph now,
      list_project_checkpoints meta ph = [] →
      handle_post_tool_use true "Write" tr meta ph now = (0, meta)) ∧
    (∀ tr (meta : Metadata) ph now latest rest,
      list_project_checkpoints meta ph = latest :: rest →
      ∃ r', get_checkpoint_metadata
          (handle_post_tool_use true "Write" tr meta ph now).2 ph latest.1 = some r' ∧
        (List.lookup "success" tr = none → r'.status = "success") ∧
        (r'.status = "failed" ↔
          ∃ v, List.lookup "success" tr = some v ∧ pyTruthy v = false)) := by
  refine ⟨?_, ?_, ?_⟩
  · intro e tn tr meta ph now
    unfold handle_post_tool_use
    split
    · rfl
    split
    · rfl
    split
    · rfl
    · rfl
  · intro tr meta ph now h
    simp [handle_post_tool_use, h]
  · intro tr meta ph now latest rest h
    cases hp : List.lookup ph meta with
    | none =>
      rw [list_project_checkpoints, hp] at h
      cases h
    | some proj =>
      have hsort : tsSort proj = latest :: rest := by
        rw [list_project_checkpoints, hp] at h
        exact h
      have hmem : latest ∈ proj := by
        have h1 : latest ∈ tsSort proj := by
          rw [hsort]; exact List.mem_cons_self latest rest
        exact (List.perm_insertionSort tsGe proj).subset h1
      obtain ⟨w, hw⟩ := lookup_exists_of_mem hmem
      have hred : handle_post_tool_use true "Write" tr meta ph now =
          (0, update_checkpoint_status meta ph latest.1
            (if pyTruthy (jgetD tr "success" (JVal.jbool true))
             then "success" else "failed") (some tr) now) := by
        simp [handle_post_tool_use, list_project_checkpoints, hp, hsort]
      rw [hred]
      obtain ⟨r', hr', hst, _, _, _⟩ :=
        update_status_found meta ph latest.1
          (if pyTruthy (jgetD tr "success" (JVal.jbool true))
           then "success" else "failed") (some tr) now proj w hp hw
      refine ⟨r', hr', ?_, ?_⟩
      · intro hnone
        rw [hst]
        simp [jgetD, hnone, pyTruthy]
      · rw [hst]
        constructor
        · intro hfail
          cases hv : List.lookup "success" tr with
          | none =>
            rw [jgetD, hv] at hfail
            simp [pyTruthy] at hfail
          | some v =>
            refine ⟨v, rfl, ?_⟩
            by_cases htv : pyTruthy v = true
            · rw [jgetD, hv] at hfail
              simp only [Option.getD_some, htv, if_true] at hfail
              exact absurd hfail (by decide)
            · rwa [Bool.not_eq_true] at htv
        · rintro ⟨v, hv, hfv⟩
          rw [jgetD, hv]
          simp [hfv]

/-- Witness for C10: finalising a one-record project with an empty
tool response (no `success` key) marks the record successful. -/
theorem claim_C10_witness :
    ∃ r', get_checkpoint_metadata
        (handle_post_tool_use true "Write" [] metaC8 "p" "T2").2 "p" "c" = some r' ∧
      (List.lookup "success" ([] : List (String × JVal)) = none → r'.status = "success") ∧
      (r'.status = "failed" ↔
        ∃ v, List.lookup "success" ([] : List (String × JVal)) = some v ∧
          pyTruthy v = false) :=
  claim_C10_finalize.2.2 [] metaC8 "p" "T2" ("c", recC8) [] (by rfl)

/-- C7 (amended): for a project with at least one checkpoint record
the stats record carries all six fields — the four counters, the
most-modified list (at most five entries) and the newest timestamp;
for a project with no records only the four counters are produced (all
zero) and the other two fields are absent, which is the correction to
the claim. -/
theorem claim_C7_stats :
    (∀ (meta : Metadata) ph,
      list_project_checkpoints meta ph = [] →
      get_project_stats meta ph =
        { total_checkpoints := 0, successful := 0, failed := 0, pending := 0,
          most_modified_files := none, latest_checkpoint := none }) ∧
    (∀ (meta : Metadata) ph c rest,
      list_project_checkpoints meta ph = c :: rest →
      (get_project_stats meta ph).total_checkpoints = (c :: rest).length ∧
      (get_project_stats meta ph).most_modified_files =
        some (get_most_modified_files (c :: rest) 5) ∧
      (∀ l, (get_project_stats meta ph).most_modified_files = some l →
        l.length ≤ 5) ∧
      (get_project_stats meta ph).latest_checkpoint = some c.2.timestamp) := by
  constructor
  · intro meta ph h
    simp only [get_project_stats, h]
  · intro meta ph c rest h
    refine ⟨?_, ?_, ?_, ?_⟩
    · simp only [get_project_stats, h]
    · simp only [get_project_stats, h]
    · intro l hl
      simp only [get_project_stats, h, Option.some.injEq] at hl
      rw [← hl]
      unfold get_most_modified_files
      exact List.length_take_le 5 _
    · simp only [get_project_stats, h]

/-- C7 counterexample to the claim as stated: a project with zero
records yields a stats record in which `most_modified_files` and
`latest_checkpoint` are absent. -/
theorem claim_C7_counterexample :
    (get_project_stats [] "p").most_modified_files = none ∧
    (get_project_stats [] "p").latest_checkpoint = none := by
  exact ⟨by rfl, by rfl⟩

/-- Witness for C7: a one-record project produces all six fields. -/
theorem claim_C7_witness :
    (get_project_stats metaC8 "p").total_checkpoints = 1 ∧
    (get_project_stats metaC8 "p").most_modified_files =
      some (get_most_modified_files [("c", recC8)] 5) ∧
    (get_project_stats metaC8 "p").latest_checkpoint =
      some "2025-01-01T00:00:00" := by
  have h := claim_C7_stats.2 metaC8 "p" ("c", recC8) [] (by rfl)
  exact ⟨h.1, h.2.1, h.2.2.2⟩

/-- C4 (amended): the listing is always sorted by timestamp descending
(stable order); the first element equals the most recently added
record provided its timestamp is strictly greater than every existing
record's — with a timestamp tie, the earlier-inserted record comes
first, which is the correction to the claim. -/
theorem claim_C4_listing_order :
    (∀ (meta : Metadata) ph,
      List.Pairwise tsGe (list_project_checkpoints meta ph)) ∧
    (∀ (meta meta' : Metadata) (ph ch tn sid now : String)
      (ti : List (String × JVal)) (proj : ProjectMap),
      (List.lookup ph meta).getD [] = proj →
      add_checkpoint meta ph ch tn ti sid now = some meta' →
      proj.any (fun e => e.1 == ch) = false →
      (∀ e ∈ proj, pyStrLe now e.2.timestamp = false) →
      ∃ files, extract_files tn ti = some files ∧
        (list_project_checkpoints meta' ph).head? = some (ch,
          { timestamp := now, tool_name := tn, tool_input := ti,
            session_id := sid, status := "pending", files_affected := files })) := by
  constructor
  · intro meta ph
    unfold list_project_checkpoints
    cases h : List.lookup ph meta with
    | none => exact List.Pairwise.nil
    | some proj => exact List.sorted_insertionSort tsGe proj
  · intro meta meta' ph ch tn sid now ti proj hproj hadd hfresh hnew
    cases hext : extract_files tn ti with
    | none =>
      rw [add_checkpoint, hext] at hadd
      cases hadd
    | some files =>
      refine ⟨files, rfl, ?_⟩
      set cdata : CheckpointData :=
        { timestamp := now, tool_name := tn, tool_input := ti,
          session_id := sid, status := "pending", files_affected := files } with hcd
      have hmeta' : meta' = dictInsert meta ph (dictInsert proj ch cdata) := by
        rw [add_checkpoint, hext] at hadd
        simp only [Option.map_some', Option.some.injEq] at hadd
        rw [← hadd, hproj]
      have happ : dictInsert proj ch cdata = proj ++ [(ch, cdata)] := by
        unfold dictInsert
        rw [hfresh]
        simp
      have hlist : list_project_checkpoints meta' ph =
          tsSort (proj ++ [(ch, cdata)]) := by
        simp only [hmeta', list_project_checkpoints, lookup_dictInsert, happ]
      rw [hlist]
      have hperm : List.Perm (tsSort (proj ++ [(ch, cdata)])) (proj ++ [(ch, cdata)]) :=
        List.perm_insertionSort tsGe _
      have hmem : (ch, cdata) ∈ tsSort (proj ++ [(ch, cdata)]) :=
        hperm.mem_iff.mpr (by simp)
      cases hLc : tsSort (proj ++ [(ch, cdata)]) with
      | nil =>
        rw [hLc] at hmem
        cases hmem
      | cons hd tl =>
        rw [hLc] at hmem hperm
        have hsorted : List.Pairwise tsGe (hd :: tl) := by
          rw [← hLc]
          exact List.sorted_insertionSort tsGe _
        have hhd : hd ∈ proj ++ [(ch, cdata)] :=
          hperm.subset (List.mem_cons_self hd tl)
        rcases List.mem_append.mp hhd with hp | hp
        · exfalso
          have hne : (ch, cdata) ≠ hd := by
            intro he'
            have hk : hd.1 = ch := by rw [← he']
            have : proj.any (fun e => e.1 == ch) = true :=
              List.any_eq_true.mpr ⟨hd, hp, by simp [hk]⟩
            rw [hfresh] at this
            cases this
          have htl : (ch, cdata) ∈ tl := by
            rcases List.mem_cons.mp hmem with he | he
            · exact absurd he hne
            · exact he
          have h1 : tsGe hd (ch, cdata) := (List.pairwise_cons.mp hsorted).1 _ htl
          have h1' : pyStrLe now hd.2.timestamp = true := h1
          have h2 := hnew hd hp
          rw [h2] at h1'
          cases h1'
        · have hhd' : hd = (ch, cdata) := by simpa using hp
          simp [hhd']

/-- The record builder shared by the C4 and C5 scenario data. -/
def recT (ts : String) : CheckpointData :=
  { timestamp := ts, tool_name := "", tool_input := [], session_id := "",
    status := "pending", files_affected := [] }

/-- Two records added under the same timestamp, in order `aaaa` then
`bbbb`. -/
def metaC4 : Metadata :=
  (add_checkpoint
    ((add_checkpoint [] "p" "aaaa" "Write" [("file_path", JVal.jstr "x")] "s" "T1").getD [])
    "p" "bbbb" "Write" [("file_path", JVal.jstr "y")] "s" "T1").getD []

/-- C4 counterexample to the claim as stated: after two adds with
equal timestamps, the head of the listing is the first-inserted record
`aaaa`, not the most recently inserted `bbbb` — Python's stable
reverse sort keeps insertion order among timestamp ties. -/
theorem claim_C4_counterexample :
    (list_project_checkpoints metaC4 "p").head?.map (fun e => e.1) = some "aaaa" ∧
    "aaaa" ≠ "bbbb" := by
  exact ⟨by rfl, by decide⟩

/-- Witness for C4: adding a strictly newer record to a one-record
project puts it first in the listing. -/
theorem claim_C4_witness :
    ∃ files, extract_files "Write" [("file_path", JVal.jstr "z")] = some files ∧
      (list_project_checkpoints
        ((add_checkpoint metaC8 "p" "d" "Write" [("file_path", JVal.jstr "z")]
          "s2" "2025-01-02T00:00:00").getD []) "p").head? = some ("d",
        { timestamp := "2025-01-02T00:00:00", tool_name := "Write",
          tool_input := [("file_path", JVal.jstr "z")], session_id := "s2",
          status := "pending", files_affected := files }) :=
  claim_C4_listing_order.2 metaC8 _ "p" "d" "Write" "s2" "2025-01-02T00:00:00"
    [("file_path", JVal.jstr "z")] [("c", recC8)]
    (by rfl) (by rfl) (by rfl) (by decide)

theorem contains_eq_true_iff {α : Type} [BEq α] [LawfulBEq α]
    (l : List α) (a : α) : l.contains a = true ↔ a ∈ l := by simp

/-- C5 (confirmed): count-based cleanup retains exactly min(n, k)
records for a project with n records and keep count k — every
retained record is one of the project's records, and every dropped
record's timestamp is at most every retained record's timestamp. -/
theorem claim_C5_cleanup_keep_count :
    ∀ (meta : Metadata) (ph : String) (k : Nat) (proj : ProjectMap),
      List.lookup ph meta = some proj →
      (proj.map (fun e => e.1)).Nodup →
      ∃ proj', List.lookup ph (cleanup_old_metadata meta ph k) = some proj' ∧
        proj'.length = min proj.length k ∧
        (∀ e ∈ proj', e ∈ proj) ∧
        (∀ e ∈ proj', ∀ d ∈ proj, d ∉ proj' →
          pyStrLe d.2.timestamp e.2.timestamp = true) := by
  intro meta ph k proj h hnd
  have hperm : List.Perm (tsSort proj) proj := List.perm_insertionSort tsGe proj
  have hlen : (tsSort proj).length = proj.length := hperm.length_eq
  by_cases hk : k < (tsSort proj).length
  · have hred : cleanup_old_metadata meta ph k =
        dictInsert meta ph (proj.filter (fun e =>
          !((((tsSort proj).drop k).map (fun e => e.1)).contains e.1))) := by
      simp only [cleanup_old_metadata, h]
      rw [if_pos hk]
    rw [hred]
    set sorted := tsSort proj with hsorteddef
    set dropped := (sorted.drop k).map (fun e => e.1) with hdroppeddef
    set P : String × CheckpointData → Bool :=
      fun e => !(dropped.contains e.1) with hPdef
    have hndentries : proj.Nodup := hnd.of_map
    have hinj : ∀ a ∈ proj, ∀ b ∈ proj, a.1 = b.1 → a = b :=
      fun a ha b hb hab => List.inj_on_of_nodup_map hnd ha hb hab
    have hsnd : sorted.Nodup := hperm.nodup_iff.mpr hndentries
    have hchar : ∀ e ∈ proj, (e.1 ∈ dropped ↔ e ∈ sorted.drop k) := by
      intro e he
      constructor
      · intro hin
        rcases List.mem_map.mp hin with ⟨d, hd, hde⟩
        have hdproj : d ∈ proj := hperm.subset (List.drop_subset k sorted hd)
        have hde' : d = e := hinj d hdproj e he hde
        exact hde' ▸ hd
      · intro hin
        exact List.mem_map.mpr ⟨e, hin, rfl⟩
    have hsplit : sorted = sorted.take k ++ sorted.drop k :=
      (List.take_append_drop k sorted).symm
    have hdisj : ∀ a ∈ sorted.take k, a ∉ sorted.drop k := by
      have h2 : (sorted.take k ++ sorted.drop k).Nodup := by
        rw [← hsplit]; exact hsnd
      intro a ha hb
      exact (List.nodup_append.mp h2).2.2 ha hb
    have hPtake : ∀ a ∈ sorted.take k, P a = true := by
      intro a ha
      have haproj : a ∈ proj := hperm.subset (List.take_subset k sorted ha)
      by_contra hPa
      have hmemd : a.1 ∈ dropped := by
        rw [hPdef] at hPa
        simp only [Bool.not_eq_true, Bool.not_eq_false'] at hPa
        exact (contains_eq_true_iff _ _).mp hPa
      exact hdisj a ha ((hchar a haproj).mp hmemd)
    have hPdrop : ∀ a ∈ sorted.drop k, P a = false := by
      intro a ha
      have hmemd : a.1 ∈ dropped := List.mem_map.mpr ⟨a, ha, rfl⟩
      rw [hPdef]
      simp only [Bool.not_eq_false']
      exact (contains_eq_true_iff _ _).mpr hmemd
    have hfperm : List.Perm (proj.filter P) (sorted.filter P) :=
      (hperm.filter P).symm
    have hfs : sorted.filter P = sorted.take k := by
      conv_lhs => rw [hsplit]
      rw [List.filter_append, List.filter_eq_self.mpr hPtake,
        List.filter_eq_nil_iff.mpr (fun a ha => by simp [hPdrop a ha]),
        List.append_nil]
    refine ⟨proj.filter P, lookup_dictInsert _ _ _, ?_, ?_, ?_⟩
    · rw [hfperm.length_eq, hfs, List.length_take, hlen, Nat.min_comm]
    · intro e he
      exact List.mem_of_mem_filter he
    · intro e he d hd hdnot
      have hPd : P d = false := by
        by_contra h'
        rw [Bool.not_eq_false] at h'
        exact hdnot (List.mem_filter.mpr ⟨hd, h'⟩)
      have hdin : d ∈ sorted.drop k := by
        apply (hchar d hd).mp
        rw [hPdef] at hPd
        simp only [Bool.not_eq_false'] at hPd
        exact (contains_eq_true_iff _ _).mp hPd
      have hPe : P e = true := (List.mem_filter.mp he).2
      have heproj : e ∈ proj := List.mem_of_mem_filter he
      have hein : e ∈ sorted.take k := by
        have hes : e ∈ sorted := hperm.mem_iff.mpr heproj
        rw [hsplit] at hes
        rcases List.mem_append.mp hes with h' | h'
        · exact h'
        · rw [hPdrop e h'] at hPe
          cases hPe
      have hpair : List.Pairwise tsGe sorted := List.sorted_insertionSort tsGe proj
      have hpair2 : List.Pairwise tsGe (sorted.take k ++ sorted.drop k) := by
        rw [← hsplit]; exact hpair
      exact (List.pairwise_append.mp hpair2).2.2 e hein d hdin
  · have hred : cleanup_old_metadata meta ph k = meta := by
      simp only [cleanup_old_metadata, h]
      rw [if_neg hk]
    rw [hred]
    refine ⟨proj, h, ?_, fun e he => he, ?_⟩
    · omega
    · intro e _ d hd hdnot
      exact absurd hd hdnot

/-- Ten records with distinct increasing timestamps for the C5
scenario. -/
def projC5 : ProjectMap :=
  [("h0", recT "T0"), ("h1", recT "T1"), ("h2", recT "T2"),
   ("h3", recT "T3"), ("h4", recT "T4"), ("h5", recT "T5"),
   ("h6", recT "T6"), ("h7", recT "T7"), ("h8", recT "T8"),
   ("h9", recT "T9")]

/-- A one-project metadata mapping for the C5 scenario. -/
def metaC5 : Metadata := [("q", projC5)]

/-- Witness for C5: cleanup with keep count 5 on 10 records keeps
exactly the 5 newest. -/
theorem claim_C5_witness :
    ∃ proj', List.lookup "q" (cleanup_old_metadata metaC5 "q" 5) = some proj' ∧
      proj'.length = min projC5.length 5 ∧
      (∀ e ∈ proj', e ∈ projC5) ∧
      (∀ e ∈ proj', ∀ d ∈ projC5, d ∉ proj' →
        pyStrLe d.2.timestamp e.2.timestamp = true) :=
  claim_C5_cleanup_keep_count metaC5 "q" 5 projC5 (by rfl) (by decide)

theorem lookup_none_of_not_key {β : Type} (l : List (FPath × β)) (k : FPath)
    (h : ∀ e ∈ l, e.1 ≠ k) : List.lookup k l = none := by
  induction l with
  | nil => rfl
  | cons e l ih =>
    have hne : (k == e.1) = false :=
      beq_eq_false_iff_ne.mpr (Ne.symm (h e (List.mem_cons_self e l)))
    simp only [List.lookup, hne]
    exact ih (fun x hx => h x (List.mem_cons_of_mem e hx))

theorem allowed_of_visible (p : FPath) (h : p.all segVisible = true) :
    p.all segAllowedCk = true := by
  rw [List.all_eq_true] at *
  intro s hs
  have hv := h s hs
  unfold segVisible at hv
  unfold segAllowedCk
  simp only [hv, Bool.true_or]

theorem gitignoreLines_visible (T : FTree)
    (hT : ∀ e ∈ T, e.1.all segVisible = true) : gitignoreLines T = [] := by
  unfold gitignoreLines
  rw [lookup_none_of_not_key]
  intro e he hk
  have hv := hT e he
  rw [hk] at hv
  exact absurd hv (by decide)

theorem sync_files_all_visible (T dst : FTree)
    (hT : ∀ e ∈ T, e.1.all segVisible = true) :
    sync_files T dst =
      dst.filter (fun e => !(T.any (fun c => c.1 == e.1))) ++ T := by
  simp only [sync_files, gitignoreLines_visible T hT]
  have hc : T.filter (fun e =>
      e.1.all segAllowedCk && !gitignoreSkips [] (joinSegs e.1)) = T := by
    apply List.filter_eq_self.mpr
    intro e he
    rw [allowed_of_visible e.1 (hT e he)]
    simp [gitignoreSkips]
  rw [hc]

theorem delete_missing_all_visible (T D : FTree)
    (hT : ∀ e ∈ T, e.1.all segVisible = true)
    (hD : ∀ e ∈ D, e.1.all segVisible = true) :
    delete_missing T D =
      D.filter (fun e => (T.map (fun c => c.1)).contains e.1) := by
  have hck : collect_checkpoint_files T = T.map (fun e => e.1) := by
    unfold collect_checkpoint_files
    rw [List.filter_eq_self.mpr (fun e he => allowed_of_visible e.1 (hT e he))]
  have hcp : collect_project_files D = D.map (fun e => e.1) := by
    unfold collect_project_files
    rw [List.filter_eq_self.mpr hD]
  unfold delete_missing
  apply List.filter_congr
  intro e he
  have hmemD : e.1 ∈ collect_project_files D := by
    rw [hcp]
    exact List.mem_map.mpr ⟨e, he, rfl⟩
  cases hc : (T.map (fun c => c.1)).contains e.1 with
  | false =>
    have hin : e.1 ∈ files_to_delete T D := by
      unfold files_to_delete
      apply List.mem_filter.mpr
      refine ⟨hmemD, ?_⟩
      rw [hck, hc]
      rfl
    rw [(contains_eq_true_iff _ _).mpr hin]
    rfl
  | true =>
    have hnin : e.1 ∉ files_to_delete T D := by
      intro hin
      unfold files_to_delete at hin
      have := (List.mem_filter.mp hin).2
      rw [hck, hc] at this
      cases this
    have : (files_to_delete T D).contains e.1 = false := by
      cases hcc : (files_to_delete T D).contains e.1 with
      | false => rfl
      | true => exact absurd ((contains_eq_true_iff _ _).mp hcc) hnin
    rw [this]
    rfl

theorem full_restore_visible (T D : FTree)
    (hT : ∀ e ∈ T, e.1.all segVisible = true)
    (hD : ∀ e ∈ D, e.1.all segVisible = true) :
    full_restore_sync T D = T := by
  show sync_files T (delete_missing T D) = T
  rw [delete_missing_all_visible T D hT hD,
    sync_files_all_visible T (D.filter (fun e =>
      (T.map (fun c => c.1)).contains e.1)) hT]
  have hnil : (D.filter (fun e => (T.map (fun c => c.1)).contains e.1)).filter
      (fun e => !(T.any (fun c => c.1 == e.1))) = [] := by
    rw [List.filter_eq_nil_iff]
    intro e he
    have h1 : (T.map (fun c => c.1)).contains e.1 = true :=
      (List.mem_filter.mp he).2
    rcases List.mem_map.mp ((contains_eq_true_iff _ _).mp h1) with ⟨c, hcT, hce⟩
    have hany : T.any (fun c => c.1 == e.1) = true :=
      List.any_eq_true.mpr ⟨c, hcT, by simp [hce]⟩
    simp [hany]
  rw [hnil, List.nil_append]

/-- C1 (amended): for snapshot and live trees containing no hidden
path segments (no dot-prefixed file or directory names), restoring a
checkpoint of tree T over an arbitrarily mutated live tree reproduces
T exactly; the code's skipping of hidden files and of paths matched by
snapshot gitignore lines, absent here, is what corrects the
unconditional claim. -/
theorem claim_C1_restore_roundtrip :
    (∀ (T D : FTree),
      (∀ e ∈ T, e.1.all segVisible = true) →
      (∀ e ∈ D, e.1.all segVisible = true) →
      full_restore_sync T D = T) ∧
    (∀ (env : RestoreEnv) (live T : FTree) (hash : String),
      env.repoExists = true →
      validate_checkpoint_hash hash = true →
      env.checkout hash = some T →
      (∀ e ∈ T, e.1.all segVisible = true) →
      (∀ e ∈ live, e.1.all segVisible = true) →
      restore_checkpoint env live hash false = (true, T, true)) := by
  constructor
  · exact full_restore_visible
  · intro env live T hash hrepo hvalid hcheckout hT hlive
    unfold restore_checkpoint
    rw [hrepo, hvalid, hcheckout]
    simp [full_restore_visible T live hT hlive]

/-- C1 counterexample to the claim as stated: a snapshot holding only
the hidden file `.env` restores to an empty live tree — the hidden
file is neither collected nor copied, so the restored tree differs
from T. -/
theorem claim_C1_counterexample :
    full_restore_sync [([".env"], "A")] [] = [] ∧
    full_restore_sync [([".env"], "A")] [] ≠ [([".env"], "A")] := by
  exact ⟨by rfl, by decide⟩

/-- Witness for C1: restoring a one-file snapshot over a mutated live
tree (one extraneous file, one edited file) reproduces the snapshot
exactly. -/
theorem claim_C1_witness :
    full_restore_sync [(["a.txt"], "x")]
      [(["b.txt"], "y"), (["a.txt"], "old")] = [(["a.txt"], "x")] :=
  claim_C1_restore_roundtrip.1 _ _ (by decide) (by decide)

/-- C2 (amended): every ID the validator rejects — any string whose
lowercased form, after discarding one optional trailing newline, is
not 1 to 40 hex characters — makes restore return failure immediately,
with the live tree unchanged and no git subprocess run; uppercase hex
and one trailing newline are accepted by the validator, which is the
correction to the claim's lowercase-only phrasing. -/
theorem claim_C2_invalid_hash_rejection :
    ∀ (env : RestoreEnv) (live : FTree) (hash : String) (dryRun : Bool),
      validate_checkpoint_hash hash = false →
      restore_checkpoint env live hash dryRun = (false, live, false) := by
  intro env live hash dryRun hv
  unfold restore_checkpoint
  cases hr : env.repoExists with
  | false => simp [hr]
  | true => simp [hr, hv]

/-- C2 counterexample to the claim as stated: `"ABC"` is not a string
of 1-40 lowercase hex characters, yet the validator lowercases first,
so restore proceeds, runs git, and can succeed and modify the tree. -/
theorem claim_C2_counterexample :
    claimLowerHex "ABC" = false ∧
    restore_checkpoint ⟨true, fun _ => some []⟩ [] "ABC" false =
      (true, [], true) := by
  exact ⟨by rfl, by rfl⟩

/-- Witness for C2: a syntactically invalid ID is rejected without
touching anything. -/
theorem claim_C2_witness :
    restore_checkpoint ⟨true, fun _ => some []⟩ [] "not-a-hash!" false =
      (false, [], false) :=
  claim_C2_invalid_hash_rejection ⟨true, fun _ => some []⟩ [] "not-a-hash!"
    false (by rfl)
